import Mathlib

/-!
Shallow embedding of the rtags daemon orchestration layer (Server.cpp and
IndexerSyncer.cpp) together with theorems settling the specification claims.

Machine integers are modelled as Int/Nat with explicit wrapping where overflow
matters; pointer identity is modelled by indices; maps are modelled by lookup
functions or association lists, as noted at each definition.
-/

namespace Rtags

/-! ## Job id generation (Server::nextId), claim C5

The counter `mJobId` is a C++ `int`; `wrap32` gives the two s-complement
wrap-around of an arbitrary integer into the signed 32-bit range. -/

/-- Two s-complement reduction of an integer to the signed 32-bit range,
modelling overflow of the C++ `int` counter in `Server::nextId`. -/
def wrap32 (n : Int) : Int := (n + 2 ^ 31) % 2 ^ 32 - 2 ^ 31

/-- `Server::nextId`: `++mJobId; if (!mJobId) ++mJobId; return mJobId;`.
The state is the `int mJobId` member; the result is (new state, returned id). -/
def nextId (mJobId : Int) : Int × Int :=
  let j := wrap32 (mJobId + 1)
  let j2 := if j = 0 then wrap32 (j + 1) else j
  (j2, j2)

theorem wrap32_eq_self (n : Int) (h1 : -2 ^ 31 ≤ n) (h2 : n < 2 ^ 31) : wrap32 n = n := by
  unfold wrap32
  have h3 : (0 : Int) ≤ n + 2 ^ 31 := by linarith
  have h4 : n + 2 ^ 31 < 2 ^ 32 := by norm_num at h2 ⊢; linarith
  rw [Int.emod_eq_of_lt h3 h4]
  ring

/-- C5 (amended): the id generator never returns 0, and the returned value is
strictly larger than the previous counter value as long as the counter has not
reached the maximum of the signed 32-bit range; at the wrap the value decreases
(see the counterexample). The new state always equals the returned value. -/
theorem claim_C5_amended (s : Int) (h1 : -2 ^ 31 ≤ s) (h2 : s < 2 ^ 31 - 1) :
    (nextId s).2 ≠ 0 ∧ s < (nextId s).2 ∧ (nextId s).1 = (nextId s).2 := by
  have hw : wrap32 (s + 1) = s + 1 := by
    apply wrap32_eq_self <;> omega
  unfold nextId
  simp only [hw]
  by_cases h0 : s + 1 = 0
  · have hw1 : wrap32 (0 + 1) = 1 := by
      rw [show (0 : Int) + 1 = 1 by ring]
      apply wrap32_eq_self <;> norm_num
    simp only [h0, if_pos rfl, hw1]
    refine ⟨by norm_num, by omega, by trivial⟩
  · simp only [if_neg h0]
    exact ⟨h0, by omega, by trivial⟩

/-- Witness for C5: the amended theorem applied at the concrete counter value 5. -/
theorem claim_C5_witness :
    (nextId 5).2 ≠ 0 ∧ (5 : Int) < (nextId 5).2 ∧ (nextId 5).1 = (nextId 5).2 :=
  claim_C5_amended 5 (by norm_num) (by norm_num)

/-- Counterexample for C5 as stated: starting from counter value 2^31 - 2, the
first call returns 2^31 - 1 and the following call returns -2^31, which is
smaller, so the value does not strictly increase between two successive calls. -/
theorem claim_C5_counterexample :
    (nextId (2 ^ 31 - 2)).2 = 2 ^ 31 - 1 ∧
    (nextId (nextId (2 ^ 31 - 2)).1).2 < (nextId (2 ^ 31 - 2)).2 := by
  constructor <;> decide

/-! ## Pending lookups and connection teardown (Server::onConnectionDestroyed,
Server::event for JobOutputEvent), claim C6

Connections are identified by an index (pointer identity in the C++); the
pending-lookups table `Map<int, Connection*>` is an association list in key
order. Each handler returns the actions it performs on jobs/connections, so
that "which jobs get aborted by this handler" is an observable. -/

/-- Connection identity (pointer identity in the C++ code). -/
abbrev Conn := Nat

/-- An action the dispatcher performs while handling an event. -/
inductive DispatchAct
  | abortJob (id : Nat)
  | writeOut (c : Conn)
  | finishConn (c : Conn)
  deriving DecidableEq

/-- `Server::onConnectionDestroyed`: walks `mPendingLookups` erasing every entry
whose value is the destroyed connection. The handler body does nothing else,
so its action list is empty: in particular it aborts no job. -/
def onConnectionDestroyed (pending : List (Nat × Conn)) (o : Conn) :
    List (Nat × Conn) × List DispatchAct :=
  (pending.filter (fun e => e.2 ≠ o), [])

/-- Lookup in the `Map<int, Connection*>` pending-lookups table. -/
def lookupPending (pending : List (Nat × Conn)) (id : Nat) : Option Conn :=
  (pending.find? (fun e => e.1 = id)).map (fun e => e.2)

/-- A `JobOutputEvent` as posted by a job: its id, output bytes and finish flag. -/
structure JobOutputEvent where
  id : Nat
  out : List Nat
  finish : Bool
  deriving DecidableEq

/-- The `JobOutputEvent` arm of `Server::event`: if the id has no pending entry,
or the connection is gone, or the write fails, the job is aborted (the abort
applies to the job if it is still alive; the weak-pointer lock is left
implicit). Otherwise the output is forwarded and `finish` finishes the
connection. -/
def eventJobOutput (pending : List (Nat × Conn)) (connected : Conn → Bool)
    (writeOk : Conn → Bool) (e : JobOutputEvent) : List DispatchAct :=
  match lookupPending pending e.id with
  | none => [DispatchAct.abortJob e.id]
  | some c =>
    if connected c = false then [DispatchAct.abortJob e.id]
    else if e.out ≠ [] ∧ writeOk c = false then
      [DispatchAct.writeOut c, DispatchAct.abortJob e.id]
    else
      (if e.out ≠ [] then [DispatchAct.writeOut c] else []) ++
        (if e.finish then [DispatchAct.finishConn c] else [])

/-- C6 (amended): destroying a connection removes exactly the pending-lookup
entries whose value is that connection, and performs no abort itself; the
corresponding job is aborted lazily, at its next output event, when the
dispatcher no longer finds a pending entry for its id. -/
theorem claim_C6_amended (pending : List (Nat × Conn)) (o : Conn)
    (connected : Conn → Bool) (writeOk : Conn → Bool) (e : JobOutputEvent)
    (hid : (e.id, o) ∈ pending)
    (hkeys : (pending.map Prod.fst).Nodup) :
    (∀ p ∈ (onConnectionDestroyed pending o).1, p.2 ≠ o) ∧
    (∀ p ∈ pending, p.2 ≠ o → p ∈ (onConnectionDestroyed pending o).1) ∧
    (onConnectionDestroyed pending o).2 = [] ∧
    DispatchAct.abortJob e.id ∈
      eventJobOutput (onConnectionDestroyed pending o).1 connected writeOk e := by
  refine ⟨?_, ?_, rfl, ?_⟩
  · intro p hp
    have := List.of_mem_filter hp
    simpa using this
  · intro p hp hne
    exact List.mem_filter.mpr ⟨hp, by simpa using hne⟩
  · have hall : ∀ q ∈ (onConnectionDestroyed pending o).1, ¬ (decide (q.1 = e.id) = true) := by
      intro p hp
      simp only [decide_eq_true_eq]
      intro hkey
      have hmem := List.mem_of_mem_filter hp
      have hval : p.2 ≠ o := by simpa using List.of_mem_filter hp
      have heq : p = (e.id, o) :=
        List.inj_on_of_nodup_map hkeys hmem hid (by simpa using hkey)
      exact hval (by rw [heq])
    have hnone : lookupPending (onConnectionDestroyed pending o).1 e.id = none := by
      unfold lookupPending
      rw [List.find?_eq_none.mpr hall]
      rfl
    unfold eventJobOutput
    rw [hnone]
    exact List.mem_singleton.mpr rfl

/-- Witness for C6: the amended theorem at a concrete table with two entries for
the destroyed connection 7 and one for connection 8. -/
theorem claim_C6_witness :
    (∀ p ∈ (onConnectionDestroyed [(1, 7), (2, 8), (3, 7)] 7).1, p.2 ≠ 7) ∧
    (∀ p ∈ [((1 : Nat), (7 : Conn)), (2, 8), (3, 7)], p.2 ≠ 7 →
      p ∈ (onConnectionDestroyed [(1, 7), (2, 8), (3, 7)] 7).1) ∧
    (onConnectionDestroyed [(1, 7), (2, 8), (3, 7)] 7).2 = [] ∧
    DispatchAct.abortJob 3 ∈
      eventJobOutput (onConnectionDestroyed [(1, 7), (2, 8), (3, 7)] 7).1
        (fun _ => true) (fun _ => true) ⟨3, [], false⟩ :=
  claim_C6_amended [(1, 7), (2, 8), (3, 7)] 7 (fun _ => true) (fun _ => true)
    ⟨3, [], false⟩ (by decide) (by decide)

/-- Counterexample for C6 as stated: destroying connection 7 removes its entry
(1, 7) from the pending table, but the destroy handler performs no action at
all — in particular it does not abort job 1 within that event-loop iteration;
the abort only happens later, when job 1 next emits output. -/
theorem claim_C6_counterexample :
    (1, 7) ∈ [((1 : Nat), (7 : Conn))] ∧
    (1, 7) ∉ (onConnectionDestroyed [(1, 7)] 7).1 ∧
    DispatchAct.abortJob 1 ∉ (onConnectionDestroyed [(1, 7)] 7).2 := by
  decide

/-! ## Socket listen retry loop (Server::init), claim C8

`listenOk i` is the outcome of the i-th `LocalServer::listen` attempt (the
environment: whether binding the socket succeeds on that attempt). The model
returns whether `mServer` is non-null after the loop — `Server::init` returns
false exactly when it is null — together with the trace of externally visible
actions the loop performs. -/

/-- An externally visible action of the `Server::init` retry loop. -/
inductive InitAct
  | listen (attempt : Nat)
  | sendShutdown
  | sleepSec
  | removeSocket
  deriving DecidableEq

/-- The retry loop of `Server::init` from attempt `i` with `fuel` attempts left:
try to listen; on success stop; on failure send a Shutdown message to any
existing listener (only when `i = 0`), sleep one second, remove the stale
socket file, and retry. -/
def initLoopFrom (listenOk : Nat → Bool) : Nat → Nat → Bool × List InitAct
  | _, 0 => (false, [])
  | i, fuel + 1 =>
    if listenOk i then (true, [InitAct.listen i])
    else
      ((initLoopFrom listenOk (i + 1) fuel).1,
        InitAct.listen i ::
          ((if i = 0 then [InitAct.sendShutdown] else []) ++
            [InitAct.sleepSec, InitAct.removeSocket] ++
              (initLoopFrom listenOk (i + 1) fuel).2))

/-- The `for (int i=0; i<10; ++i)` listen loop of `Server::init`; the Bool is
whether a server is listening at the end (`Server::init` returns false iff not). -/
def serverInitListen (listenOk : Nat → Bool) : Bool × List InitAct :=
  initLoopFrom listenOk 0 10

/-- Whether an `InitAct` is a listen attempt. -/
def InitAct.isListen : InitAct → Bool
  | InitAct.listen _ => true
  | _ => false

/-- Whether an `InitAct` is the Shutdown message to a previous listener. -/
def InitAct.isShutdownMsg : InitAct → Bool
  | InitAct.sendShutdown => true
  | _ => false

/-- Whether an `InitAct` removes the stale socket file. -/
def InitAct.isRemove : InitAct → Bool
  | InitAct.removeSocket => true
  | _ => false

@[simp] theorem isListen_listen (n : Nat) : (InitAct.listen n).isListen = true := rfl

@[simp] theorem isListen_sendShutdown : InitAct.sendShutdown.isListen = false := rfl

@[simp] theorem isListen_sleepSec : InitAct.sleepSec.isListen = false := rfl

@[simp] theorem isListen_removeSocket : InitAct.removeSocket.isListen = false := rfl

@[simp] theorem isShutdownMsg_listen (n : Nat) : (InitAct.listen n).isShutdownMsg = false := rfl

@[simp] theorem isShutdownMsg_sendShutdown : InitAct.sendShutdown.isShutdownMsg = true := rfl

@[simp] theorem isShutdownMsg_sleepSec : InitAct.sleepSec.isShutdownMsg = false := rfl

@[simp] theorem isShutdownMsg_removeSocket : InitAct.removeSocket.isShutdownMsg = false := rfl

@[simp] theorem isRemove_listen (n : Nat) : (InitAct.listen n).isRemove = false := rfl

@[simp] theorem isRemove_sendShutdown : InitAct.sendShutdown.isRemove = false := rfl

@[simp] theorem isRemove_sleepSec : InitAct.sleepSec.isRemove = false := rfl

@[simp] theorem isRemove_removeSocket : InitAct.removeSocket.isRemove = true := rfl

theorem initLoopFrom_ok (listenOk : Nat → Bool) (n i : Nat) (h : listenOk i = true) :
    initLoopFrom listenOk i (n + 1) = (true, [InitAct.listen i]) := by
  conv_lhs => rw [initLoopFrom]
  rw [h]
  simp

theorem initLoopFrom_fail (listenOk : Nat → Bool) (n i : Nat) (h : listenOk i = false) :
    initLoopFrom listenOk i (n + 1) =
      ((initLoopFrom listenOk (i + 1) n).1,
        InitAct.listen i ::
          ((if i = 0 then [InitAct.sendShutdown] else []) ++
            [InitAct.sleepSec, InitAct.removeSocket] ++
              (initLoopFrom listenOk (i + 1) n).2)) := by
  conv_lhs => rw [initLoopFrom]
  rw [h]
  simp

theorem initLoopFrom_succ_iff (listenOk : Nat → Bool) (fuel i : Nat) :
    (initLoopFrom listenOk i fuel).1 = true ↔ ∃ k < fuel, listenOk (i + k) = true := by
  induction fuel generalizing i with
  | zero => simp [initLoopFrom]
  | succ n ih =>
    unfold initLoopFrom
    by_cases h : listenOk i
    · simp only [h, if_true]
      constructor
      · intro _
        exact ⟨0, by omega, by simpa using h⟩
      · intro _
        trivial
    · simp only [h, if_false, Bool.false_eq_true]
      rw [ih (i + 1)]
      constructor
      · rintro ⟨k, hk, hok⟩
        exact ⟨k + 1, by omega, by rw [show i + (k + 1) = i + 1 + k by omega]; exact hok⟩
      · rintro ⟨k, hk, hok⟩
        match k with
        | 0 => exact absurd hok (by simpa using h)
        | k + 1 => exact ⟨k, by omega, by rw [show i + 1 + k = i + (k + 1) by omega]; exact hok⟩

theorem initLoopFrom_shutdown_count_pos (listenOk : Nat → Bool) (fuel i : Nat)
    (hi : 1 ≤ i) :
    ((initLoopFrom listenOk i fuel).2).countP (fun a => InitAct.isShutdownMsg a) = 0 := by
  induction fuel generalizing i with
  | zero => simp [initLoopFrom]
  | succ n ih =>
    by_cases h : listenOk i
    · rw [initLoopFrom_ok listenOk n i h]
      simp
    · rw [initLoopFrom_fail listenOk n i (by simpa using h)]
      rw [if_neg (by omega : ¬ i = 0)]
      have hrec := ih (i + 1) (by omega)
      simp [List.countP_cons, List.countP_append, hrec]

theorem initLoopFrom_listen_removes (listenOk : Nat → Bool) (fuel i : Nat) :
    ((initLoopFrom listenOk i fuel).2).countP (fun a => InitAct.isListen a) =
      ((initLoopFrom listenOk i fuel).2).countP (fun a => InitAct.isRemove a) +
        (if (initLoopFrom listenOk i fuel).1 then 1 else 0) := by
  induction fuel generalizing i with
  | zero => simp [initLoopFrom]
  | succ n ih =>
    by_cases h : listenOk i
    · rw [initLoopFrom_ok listenOk n i h]
      simp
    · rw [initLoopFrom_fail listenOk n i (by simpa using h)]
      have hrec := ih (i + 1)
      by_cases hi : i = 0
      · rw [if_pos hi]
        simp only [List.countP_cons, List.countP_append, List.countP_nil]
        simp only [List.singleton_append, List.countP_cons] at hrec ⊢
        simp at hrec ⊢
        omega
      · rw [if_neg hi]
        simp only [List.nil_append, List.countP_cons, List.countP_append]
        simp at hrec ⊢
        omega

/-- C8 (amended): the retry loop makes at most 10 listen attempts and succeeds
iff some attempt k ≤ 10 binds; the Shutdown message is sent exactly once, and
only when the first attempt fails (not before every retry); each failed attempt
is followed by removing the stale socket file before the next attempt, so the
number of listen attempts exceeds the number of socket removals exactly when
the loop succeeds. -/
theorem claim_C8_amended (listenOk : Nat → Bool) :
    ((serverInitListen listenOk).1 = true ↔ ∃ k < 10, listenOk k = true) ∧
    ((serverInitListen listenOk).2).countP (fun a => InitAct.isShutdownMsg a) =
      (if listenOk 0 then 0 else 1) ∧
    ((serverInitListen listenOk).2).countP (fun a => InitAct.isListen a) =
      ((serverInitListen listenOk).2).countP (fun a => InitAct.isRemove a) +
        (if (serverInitListen listenOk).1 then 1 else 0) := by
  refine ⟨by simpa using initLoopFrom_succ_iff listenOk 10 0, ?_, ?_⟩
  · unfold serverInitListen
    rw [show (10 : Nat) = 9 + 1 from rfl]
    by_cases h : listenOk 0
    · rw [initLoopFrom_ok listenOk 9 0 h]
      simp [h]
    · rw [initLoopFrom_fail listenOk 9 0 (by simpa using h)]
      rw [if_pos rfl]
      have hrec := initLoopFrom_shutdown_count_pos listenOk 9 1 (by omega)
      simp [List.countP_cons, List.countP_append, hrec, h]
  · exact initLoopFrom_listen_removes listenOk 10 0

/-- Counterexample for C8 as stated: with the first two listen attempts failing
and the third succeeding, the trace sends Shutdown only once (after the first
failure), so the second retry is not preceded by a Shutdown message, contrary
to "each attempt is preceded by sending a Shutdown message". -/
theorem claim_C8_counterexample :
    (serverInitListen (fun i => i == 2)).2 =
      [InitAct.listen 0, InitAct.sendShutdown, InitAct.sleepSec, InitAct.removeSocket,
       InitAct.listen 1, InitAct.sleepSec, InitAct.removeSocket, InitAct.listen 2] ∧
    ((serverInitListen (fun i => i == 2)).2).countP (fun a => InitAct.isShutdownMsg a) = 1 ∧
    (serverInitListen (fun i => i == 2)).1 = true := by
  refine ⟨by decide, by decide, by decide⟩

/-! ## Persistence timer arming (Server::onJobsComplete, Server::onJobStarted),
claim C9

`mSaveTimers` is a `Map<shared_ptr<Indexer>, int>` from indexer identity to an
event-loop timer id, modelled by its lookup function. The event loop's timer
registry is modelled from the spec (the `EventLoop` class is not part of the
given sources): `addTimer` registers a one-shot timer under a fresh id and
records its interval, `removeTimer` deregisters it; only registered timers can
fire. -/

/-- Indexer identity (shared-pointer identity in the C++ code). -/
abbrev Indexer := Nat

/-- Modelled from the spec: the event-loop timer registry backing
`EventLoop::addTimer` and `EventLoop::removeTimer` (the `EventLoop` class is
not among the given sources). `active` is the set of registered timer ids,
`nextTimer` the next id to hand out, `intervalOf` the interval each id was
registered with; a timer can only fire while its id is in `active`. -/
structure TimerLoop where
  active : Finset Int
  nextTimer : Int
  intervalOf : Int → Nat

/-- Modelled from the spec: `EventLoop::addTimer` registers a fresh one-shot
timer id with the given interval in milliseconds. -/
def addTimer (loop : TimerLoop) (ms : Nat) : TimerLoop × Int :=
  ({ active := insert loop.nextTimer loop.active
     nextTimer := loop.nextTimer + 1
     intervalOf := fun t => if t = loop.nextTimer then ms else loop.intervalOf t },
   loop.nextTimer)

/-- Modelled from the spec: `EventLoop::removeTimer` deregisters a timer id so
it can no longer fire. -/
def removeTimer (loop : TimerLoop) (id : Int) : TimerLoop :=
  { loop with active := loop.active.erase id }

/-- The state `Server` keeps for the persistence controller: the
`mSaveTimers` map (by lookup function) and the event-loop timer registry. -/
structure SaveTimerState where
  saveTimers : Indexer → Option Int
  loop : TimerLoop

/-- The 5000 ms quiescence interval (`SaveTimerInterval`). -/
def saveTimerInterval : Nat := 5000

/-- `Server::onJobsComplete`: take (remove) the indexer's entry from
`mSaveTimers`; if one was present and not -1, remove that event-loop timer;
if the completed count is non-zero, arm a fresh 5s one-shot timer and store
its id for the indexer. -/
def onJobsComplete (st : SaveTimerState) (ix : Indexer) (count : Nat) : SaveTimerState :=
  let taken := st.saveTimers ix
  let timers1 : Indexer → Option Int := fun j => if j = ix then none else st.saveTimers j
  let loop1 :=
    match taken with
    | some t => if t = -1 then st.loop else removeTimer st.loop t
    | none => st.loop
  if count ≠ 0 then
    let added := addTimer loop1 saveTimerInterval
    { saveTimers := fun j => if j = ix then some added.2 else timers1 j
      loop := added.1 }
  else
    { saveTimers := timers1, loop := loop1 }

/-- `Server::onJobStarted`: take the indexer's entry from `mSaveTimers` and,
if one was present and not -1, remove that event-loop timer. No timer is armed. -/
def onJobStarted (st : SaveTimerState) (ix : Indexer) : SaveTimerState :=
  let taken := st.saveTimers ix
  let timers1 : Indexer → Option Int := fun j => if j = ix then none else st.saveTimers j
  let loop1 :=
    match taken with
    | some t => if t = -1 then st.loop else removeTimer st.loop t
    | none => st.loop
  { saveTimers := timers1, loop := loop1 }

/-- C9 (confirmed): under the invariant that every registered timer id and
every id stored in `mSaveTimers` is below the next fresh id, a
`jobsComplete(ix, n)` with n > 0 arms a one-shot 5000 ms timer for `ix`,
deregistering any previously armed one; a subsequent `jobStarted` for `ix`, or
a `jobsComplete(ix, 0)`, leaves no stored timer for `ix` and deregisters the
armed timer id, so it can no longer fire. -/
theorem claim_C9 (st : SaveTimerState) (ix : Indexer) (n : Nat)
    (hn : 0 < n)
    (hpos : 0 ≤ st.loop.nextTimer)
    (_hfresh : ∀ t ∈ st.loop.active, t < st.loop.nextTimer)
    (hmap : ∀ t0, st.saveTimers ix = some t0 → 0 ≤ t0 ∧ t0 < st.loop.nextTimer) :
    ∃ tid, (onJobsComplete st ix n).saveTimers ix = some tid ∧
      tid ∈ (onJobsComplete st ix n).loop.active ∧
      (onJobsComplete st ix n).loop.intervalOf tid = saveTimerInterval ∧
      (∀ t0, st.saveTimers ix = some t0 → t0 ≠ tid ∧ t0 ∉ (onJobsComplete st ix n).loop.active) ∧
      (onJobStarted (onJobsComplete st ix n) ix).saveTimers ix = none ∧
      tid ∉ (onJobStarted (onJobsComplete st ix n) ix).loop.active ∧
      (onJobsComplete (onJobsComplete st ix n) ix 0).saveTimers ix = none ∧
      tid ∉ (onJobsComplete (onJobsComplete st ix n) ix 0).loop.active := by
  have hne : n ≠ 0 := by omega
  have hNne : ¬ st.loop.nextTimer = -1 := by omega
  cases htaken : st.saveTimers ix with
  | none =>
    refine ⟨st.loop.nextTimer, ?_, ?_, ?_, ?_, ?_, ?_, ?_, ?_⟩ <;>
      simp [onJobsComplete, onJobStarted, addTimer, removeTimer, saveTimerInterval,
        htaken, hne, hNne, Finset.not_mem_erase]
  | some t0 =>
    have ht0 := hmap t0 htaken
    have ht0ne : ¬ t0 = -1 := by omega
    refine ⟨st.loop.nextTimer, ?_, ?_, ?_, ?_, ?_, ?_, ?_, ?_⟩ <;>
      simp [onJobsComplete, onJobStarted, addTimer, removeTimer, saveTimerInterval,
        htaken, hne, hNne, ht0ne, Finset.not_mem_erase]
    omega

/-- Witness for C9: the claim theorem at a concrete state with one timer (id 3)
already armed for indexer 0 and another timer (id 4) registered. -/
theorem claim_C9_witness :
    ∃ tid,
      (onJobsComplete ⟨fun j => if j = 0 then some 3 else none, ⟨{3, 4}, 5, fun _ => 0⟩⟩ 0 2).saveTimers 0 = some tid ∧
      tid ∈ (onJobsComplete ⟨fun j => if j = 0 then some 3 else none, ⟨{3, 4}, 5, fun _ => 0⟩⟩ 0 2).loop.active ∧
      (onJobsComplete ⟨fun j => if j = 0 then some 3 else none, ⟨{3, 4}, 5, fun _ => 0⟩⟩ 0 2).loop.intervalOf tid = saveTimerInterval ∧
      (∀ t0, (fun j => if j = (0 : Indexer) then some (3 : Int) else none) 0 = some t0 →
        t0 ≠ tid ∧ t0 ∉ (onJobsComplete ⟨fun j => if j = 0 then some 3 else none, ⟨{3, 4}, 5, fun _ => 0⟩⟩ 0 2).loop.active) ∧
      (onJobStarted (onJobsComplete ⟨fun j => if j = 0 then some 3 else none, ⟨{3, 4}, 5, fun _ => 0⟩⟩ 0 2) 0).saveTimers 0 = none ∧
      tid ∉ (onJobStarted (onJobsComplete ⟨fun j => if j = 0 then some 3 else none, ⟨{3, 4}, 5, fun _ => 0⟩⟩ 0 2) 0).loop.active ∧
      (onJobsComplete (onJobsComplete ⟨fun j => if j = 0 then some 3 else none, ⟨{3, 4}, 5, fun _ => 0⟩⟩ 0 2) 0 0).saveTimers 0 = none ∧
      tid ∉ (onJobsComplete (onJobsComplete ⟨fun j => if j = 0 then some 3 else none, ⟨{3, 4}, 5, fun _ => 0⟩⟩ 0 2) 0 0).loop.active :=
  claim_C9 ⟨fun j => if j = 0 then some 3 else none, ⟨{3, 4}, 5, fun _ => 0⟩⟩ 0 2
    (by omega)
    (by decide)
    (by intro t ht; fin_cases ht <;> decide)
    (by intro t0 h0; simp at h0; subst h0; decide)

/-! ## Current-project selection (Server::updateProjectForLocation), claim C2

Paths are byte sequences; `strncmp(root, path, root.size()) == 0` is byte-wise
prefix testing. Projects are listed in the iteration order of the `mProjects`
map and identified by their position; the current project is an index
(shared-pointer identity in the C++ code). -/

/-- A file-system path as its byte sequence. -/
abbrev FsPath := List Char

/-- The part of a registered project that current-project selection reads. -/
structure Project where
  srcRoot : FsPath
  resolvedSrcRoot : FsPath
  deriving DecidableEq

/-- One iteration's effect on the `match`/`longest` accumulators of
`Server::updateProjectForLocation` for project `p` at index `i` (after the
early-return test): a non-empty `srcRoot` that is a prefix of `path` and
strictly longer than `longest` replaces the accumulator, then likewise for
`resolvedSrcRoot`. -/
def updateAcc (path : FsPath) (p : Project) (i : Nat) (mtch : Option Nat) (longest : Int) :
    Option Nat × Int :=
  let s1 :=
    if p.srcRoot ≠ [] ∧ p.srcRoot.isPrefixOf path = true ∧
        (p.srcRoot.length : Int) > longest
    then (some i, (p.srcRoot.length : Int)) else (mtch, longest)
  if p.resolvedSrcRoot ≠ [] ∧ p.resolvedSrcRoot.isPrefixOf path = true ∧
      (p.resolvedSrcRoot.length : Int) > s1.2
  then (some i, (p.resolvedSrcRoot.length : Int)) else s1

/-- The loop of `Server::updateProjectForLocation` over the remaining projects,
with `i` the index of the first of them, `cur` the locked current project and
`mtch`/`longest` the `match`/`longest` accumulators: a project whose non-empty
`srcRoot` is a prefix of `path` and which is the current project causes an
early return keeping the current project; otherwise the accumulators are
updated (`updateAcc`). At the end the accumulated match, if any, becomes
current. -/
def updateGo (cur : Option Nat) (path : FsPath) :
    List Project → Nat → Option Nat → Int → Option Nat × Bool
  | [], _, mtch, _ =>
    (match mtch with
     | some m => (some m, true)
     | none => (cur, false))
  | p :: rest, i, mtch, longest =>
    if p.srcRoot ≠ [] ∧ p.srcRoot.isPrefixOf path = true ∧ cur = some i then
      (cur, true)
    else
      updateGo cur path rest (i + 1)
        (updateAcc path p i mtch longest).1 (updateAcc path p i mtch longest).2

/-- `Server::updateProjectForLocation(path)`: result is the new current-project
index together with the returned boolean. -/
def updateProjectForLocation (projects : List Project) (cur : Option Nat) (path : FsPath) :
    Option Nat × Bool :=
  updateGo cur path projects 0 none (-1)

/-- The best match length a single project offers for `path`: the length of
`srcRoot` or `resolvedSrcRoot` when that root is a non-empty byte prefix of
`path`, and -1 when neither matches. -/
def candLen (path : FsPath) (p : Project) : Int :=
  max (if p.srcRoot ≠ [] ∧ p.srcRoot.isPrefixOf path = true
       then (p.srcRoot.length : Int) else -1)
      (if p.resolvedSrcRoot ≠ [] ∧ p.resolvedSrcRoot.isPrefixOf path = true
       then (p.resolvedSrcRoot.length : Int) else -1)

/-- Declarative selection: the first index (counting from `i`) of a project
attaining the maximal candidate length, with that length; `(none, -1)` when no
project matches. -/
def bestIdx (path : FsPath) : List Project → Nat → Option Nat × Int
  | [], _ => (none, -1)
  | p :: rest, i =>
    let b := bestIdx path rest (i + 1)
    if candLen path p ≥ b.2 ∧ candLen path p > -1 then (some i, candLen path p) else b

theorem candLen_ge (path : FsPath) (p : Project) : -1 ≤ candLen path p := by
  unfold candLen
  split_ifs with h1 h2 h2 <;> simp [le_max_iff] <;> omega

theorem bestIdx_spec (path : FsPath) (l : List Project) (i : Nat) :
    ((bestIdx path l i).1 = none ∧ (bestIdx path l i).2 = -1) ∨
    (∃ m, (bestIdx path l i).1 = some m ∧ (bestIdx path l i).2 > -1) := by
  induction l generalizing i with
  | nil => left; exact ⟨rfl, rfl⟩
  | cons p rest ih =>
    unfold bestIdx
    by_cases h : candLen path p ≥ (bestIdx path rest (i + 1)).2 ∧ candLen path p > -1
    · right
      exact ⟨i, by simp [h], by simp [h]⟩
    · simp only [h, if_false]
      exact ih (i + 1)

theorem updateAcc_eq (path : FsPath) (p : Project) (i : Nat) (mtch : Option Nat)
    (longest : Int) (hl : -1 ≤ longest) :
    updateAcc path p i mtch longest =
      (if candLen path p > longest then (some i, candLen path p) else (mtch, longest)) := by
  unfold updateAcc candLen
  by_cases h1 : p.srcRoot = [] <;> by_cases h2 : p.srcRoot.isPrefixOf path = true <;>
    by_cases h3 : p.resolvedSrcRoot = [] <;>
    by_cases h4 : p.resolvedSrcRoot.isPrefixOf path = true <;>
    simp only [h1, h2, h3, h4, ne_eq, not_true_eq_false, not_false_eq_true, true_and,
      false_and, and_false, and_true, if_true, if_false, max_def, List.length_nil,
      Nat.cast_zero, Bool.false_eq_true] <;>
    split_ifs <;>
    first
      | rfl
      | (exfalso; omega)
      | (simp only [Prod.mk.injEq]
         constructor <;> first | rfl | omega | (exfalso; omega))
      | (simp at *
         omega)

/-- Combination of the loop accumulator with the best of the rest: the later
(suffix) best wins only when strictly longer. -/
def combineAcc (a : Option Nat × Int) (b : Option Nat × Int) : Option Nat × Int :=
  if b.2 > a.2 then b else a

/-- Finishing step of the loop: an accumulated match becomes current. -/
def finishSel (cur : Option Nat) (r : Option Nat × Int) : Option Nat × Bool :=
  match r.1 with
  | some m => (some m, true)
  | none => (cur, false)

theorem bestIdx_cons (path : FsPath) (p : Project) (rest : List Project) (i : Nat) :
    bestIdx path (p :: rest) i =
      (if candLen path p ≥ (bestIdx path rest (i + 1)).2 ∧ candLen path p > -1
       then (some i, candLen path p) else bestIdx path rest (i + 1)) := rfl

theorem combineAcc_cons (i : Nat) (mtch : Option Nat) (longest C : Int)
    (b : Option Nat × Int) (hl : -1 ≤ longest) :
    combineAcc (if C > longest then (some i, C) else (mtch, longest)) b =
      combineAcc (mtch, longest) (if C ≥ b.2 ∧ C > -1 then (some i, C) else b) := by
  unfold combineAcc
  split_ifs <;>
    first
      | rfl
      | (exfalso; omega)
      | (simp at *; omega)

theorem updateGo_eq_best (path : FsPath) (cur : Option Nat) (l : List Project)
    (i : Nat) (mtch : Option Nat) (longest : Int)
    (hl : -1 ≤ longest)
    (hcur : ∀ j p, l.get? j = some p → cur = some (i + j) →
      ¬(p.srcRoot ≠ [] ∧ p.srcRoot.isPrefixOf path = true)) :
    updateGo cur path l i mtch longest =
      finishSel cur (combineAcc (mtch, longest) (bestIdx path l i)) := by
  induction l generalizing i mtch longest with
  | nil =>
    unfold updateGo bestIdx combineAcc
    rw [if_neg (by simp; omega)]
    rfl
  | cons p rest ih =>
    have hnohit : ¬(p.srcRoot ≠ [] ∧ p.srcRoot.isPrefixOf path = true ∧ cur = some i) := by
      rintro ⟨h1, h2, h3⟩
      exact hcur 0 p rfl (by simpa using h3) ⟨h1, h2⟩
    unfold updateGo
    rw [if_neg hnohit]
    rw [updateAcc_eq path p i mtch longest hl]
    have hcur2 : ∀ j q, rest.get? j = some q → cur = some (i + 1 + j) →
        ¬(q.srcRoot ≠ [] ∧ q.srcRoot.isPrefixOf path = true) := by
      intro j q hj hc
      exact hcur (j + 1) q (by simpa using hj) (by rw [hc]; congr 1; omega)
    have hl2 : -1 ≤ (if candLen path p > longest then ((some i : Option Nat), candLen path p)
        else (mtch, longest)).2 := by
      by_cases hC : candLen path p > longest
      · rw [if_pos hC]
        exact le_trans hl (by simpa using le_of_lt hC)
      · rw [if_neg hC]
        exact hl
    rw [ih (i + 1) _ _ hl2 hcur2]
    simp only [Prod.mk.eta]
    rw [bestIdx_cons]
    exact congrArg (finishSel cur)
      (combineAcc_cons i mtch longest (candLen path p) (bestIdx path rest (i + 1)) hl)

theorem updateGo_cur_hit (path : FsPath) (cur : Option Nat) (l : List Project)
    (i c : Nat) (pc : Project)
    (hcur : cur = some c) (hi : i ≤ c) (hget : l.get? (c - i) = some pc)
    (hhit : pc.srcRoot ≠ [] ∧ pc.srcRoot.isPrefixOf path = true) :
    ∀ mtch longest, updateGo cur path l i mtch longest = (cur, true) := by
  induction l generalizing i with
  | nil => simp at hget
  | cons p rest ih =>
    intro mtch longest
    by_cases hic : i = c
    · have hp : p = pc := by
        subst hic
        simpa using hget
      unfold updateGo
      rw [if_pos ⟨by rw [hp]; exact hhit.1, by rw [hp]; exact hhit.2, by rw [hcur, hic]⟩]
    · have hlt : i < c := by omega
      unfold updateGo
      rw [if_neg (by rintro ⟨-, -, h⟩; rw [hcur] at h; simp at h; omega)]
      have hget2 : rest.get? (c - (i + 1)) = some pc := by
        have hge : c - i = (c - (i + 1)) + 1 := by omega
        rw [hge] at hget
        simpa using hget
      exact ih (i + 1) (by omega) hget2 _ _

/-- C2 (amended): current-project selection deviates from pure longest-prefix
selection in one way — when the current project itself has a non-empty
`srcRoot` that is a byte prefix of the path, the scan stops there and the
current project is kept, even if another project matches with a strictly
longer root. Otherwise the first project (in map-iteration order, not
registration order) attaining the longest matching root becomes current, and
when no root matches the current project is left unchanged. -/
theorem claim_C2_amended (projects : List Project) (cur : Option Nat) (path : FsPath) :
    (∀ c pc, cur = some c → projects.get? c = some pc →
      pc.srcRoot ≠ [] → pc.srcRoot.isPrefixOf path = true →
      updateProjectForLocation projects cur path = (cur, true)) ∧
    ((∀ c pc, cur = some c → projects.get? c = some pc →
        ¬(pc.srcRoot ≠ [] ∧ pc.srcRoot.isPrefixOf path = true)) →
      updateProjectForLocation projects cur path =
        (match (bestIdx path projects 0).1 with
         | some m => (some m, true)
         | none => (cur, false))) := by
  constructor
  · intro c pc hc hget h1 h2
    unfold updateProjectForLocation
    exact updateGo_cur_hit path cur projects 0 c pc hc (by omega) (by simpa using hget)
      ⟨h1, h2⟩ none (-1)
  · intro hcur
    unfold updateProjectForLocation
    rw [updateGo_eq_best path cur projects 0 none (-1) (by omega)
      (fun j p hj hc => hcur (0 + j) p hc (by simpa using hj))]
    rcases bestIdx_spec path projects 0 with ⟨h1, h2⟩ | ⟨m, h1, h2⟩
    · unfold combineAcc finishSel
      rw [if_neg (by omega), h1]
    · unfold combineAcc finishSel
      rw [if_pos (by simpa using h2), h1]

/-- Witness for C2: the amended theorem at one registered project whose
srcRoot "/a/" matches the path "/a/x"; with no current project the match
becomes current. -/
theorem claim_C2_witness :
    updateProjectForLocation [⟨"/a/".toList, []⟩] none "/a/x".toList =
      (match (bestIdx "/a/x".toList [⟨"/a/".toList, []⟩] 0).1 with
       | some m => (some m, true)
       | none => ((none : Option Nat), false)) :=
  (claim_C2_amended [⟨"/a/".toList, []⟩] none "/a/x".toList).2
    (fun _ _ hc _ => absurd hc (by simp))

/-- Counterexample for C2 as stated: with projects 0 (srcRoot "/a/b/") and 1
(srcRoot "/a/") and project 1 current, selecting for path "/a/b/c" keeps
project 1 current although project 0 offers a strictly longer matching root,
because the scan early-returns upon reaching the matching current project. -/
theorem claim_C2_counterexample :
    (updateProjectForLocation [⟨"/a/b/".toList, []⟩, ⟨"/a/".toList, []⟩]
        (some 1) "/a/b/c".toList).1 = some 1 ∧
    candLen "/a/b/c".toList ⟨"/a/b/".toList, []⟩ >
      candLen "/a/b/c".toList ⟨"/a/".toList, []⟩ := by
  constructor <;> decide

/-! ## The IsIndexed query handler (Server::isIndexed), claim C10

The handler's environment abstracts the file system and per-project state for
the queried path: whether the path is a file or directory, its interned file
id (0 when not interned), whether a given project has the file indexed, and
whether a given project's file manager contains the path. -/

/-- Environment of one `Server::isIndexed` call for a fixed query path. -/
structure IsIndexedEnv where
  isFile : Bool
  isDir : Bool
  fileId : Nat
  indexed : Nat → Nat → Bool
  fmContains : Nat → Bool

/-- `Server::isIndexed`: for an existing file with a non-zero id, save the
locked current project, run current-project selection, test the selected
project, reply, and restore the saved project — but only if the saved pointer
was non-null. For a directory, run selection and leave the selected project
current. Returns the reply and the final current project. -/
def isIndexedHandler (projects : List Project) (cur : Option Nat) (path : FsPath)
    (env : IsIndexedEnv) : String × Option Nat :=
  if env.isFile then
    if env.fileId ≠ 0 then
      let old := cur
      let cur1 := (updateProjectForLocation projects cur path).1
      match cur1 with
      | some c =>
        if env.indexed c env.fileId then
          ("1", if old.isSome then old else cur1)
        else
          ("0", if old.isSome then old else cur1)
      | none => ("0", if old.isSome then old else cur1)
    else ("0", cur)
  else if env.isDir then
    let cur1 := (updateProjectForLocation projects cur path).1
    match cur1 with
    | some c => if env.fmContains c then ("1", cur1) else ("0", cur1)
    | none => ("0", cur1)
  else ("0", cur)

/-- C10 (amended): for an existing file the handler restores the saved current
project only when one existed before the query — with a current project the
registry is left unchanged, but with no current project the project selected
during the lookup stays current (the restore is guarded by a null check); for
an existing directory the selected project always stays current. -/
theorem claim_C10_amended (projects : List Project) (cur : Option Nat) (path : FsPath)
    (env : IsIndexedEnv) :
    (∀ c, cur = some c → env.isFile = true →
      (isIndexedHandler projects (some c) path env).2 = some c) ∧
    (cur = none → env.isFile = true → env.fileId ≠ 0 →
      (isIndexedHandler projects none path env).2 =
        (updateProjectForLocation projects none path).1) ∧
    (env.isFile = false → env.isDir = true →
      (isIndexedHandler projects cur path env).2 =
        (updateProjectForLocation projects cur path).1) := by
  refine ⟨?_, ?_, ?_⟩
  · intro c hc hf
    unfold isIndexedHandler
    rw [hf, if_pos rfl]
    by_cases hid : env.fileId ≠ 0
    · rw [if_pos hid]
      cases hcur1 : (updateProjectForLocation projects (some c) path).1 with
      | none => simp
      | some m =>
        by_cases hix : env.indexed m env.fileId = true <;> simp [hix]
    · rw [if_neg hid]
  · intro hc hf hid
    unfold isIndexedHandler
    rw [hf, if_pos rfl, if_pos hid]
    cases hcur1 : (updateProjectForLocation projects none path).1 with
    | none => simp
    | some m =>
      by_cases hix : env.indexed m env.fileId = true <;> simp [hix]
  · intro hf hd
    unfold isIndexedHandler
    rw [hf]
    simp only [Bool.false_eq_true, if_false]
    rw [hd, if_pos rfl]
    cases hcur1 : (updateProjectForLocation projects cur path).1 with
    | none => simp
    | some m =>
      by_cases hfm : env.fmContains m = true <;> simp [hfm]

/-- Witness for C10: the amended theorem at one project with srcRoot "/a/",
current project 0 and the file query "/a/x.c" with id 7: the current project
is restored. -/
theorem claim_C10_witness :
    (∀ c, (some 0 : Option Nat) = some c → true = true →
      (isIndexedHandler [⟨"/a/".toList, []⟩] (some c) "/a/x.c".toList
        ⟨true, false, 7, fun _ _ => false, fun _ => false⟩).2 = some c) ∧
    ((some 0 : Option Nat) = none → true = true → (7 : Nat) ≠ 0 →
      (isIndexedHandler [⟨"/a/".toList, []⟩] none "/a/x.c".toList
        ⟨true, false, 7, fun _ _ => false, fun _ => false⟩).2 =
        (updateProjectForLocation [⟨"/a/".toList, []⟩] none "/a/x.c".toList).1) ∧
    ((true : Bool) = false → (false : Bool) = true →
      (isIndexedHandler [⟨"/a/".toList, []⟩] (some 0) "/a/x.c".toList
        ⟨true, false, 7, fun _ _ => false, fun _ => false⟩).2 =
        (updateProjectForLocation [⟨"/a/".toList, []⟩] (some 0) "/a/x.c".toList).1) :=
  claim_C10_amended [⟨"/a/".toList, []⟩] (some 0) "/a/x.c".toList
    ⟨true, false, 7, fun _ _ => false, fun _ => false⟩

/-- Counterexample for C10 as stated: for an existing file with no current
project registered, the handler leaves the project selected during the lookup
current (the restore is skipped because the saved pointer was null), so
handling the query does change the registry's current project. -/
theorem claim_C10_counterexample :
    (isIndexedHandler [⟨"/a/".toList, []⟩] none "/a/x.c".toList
      ⟨true, false, 7, fun _ _ => false, fun _ => false⟩).2 = some 0 ∧
    some 0 ≠ (none : Option Nat) := by
  constructor
  · decide
  · simp

/-! ## Symbol-name staging and flush (IndexerSyncer::addSymbolNames and the
symbol-names step of IndexerSyncer::run), claim C3

Locations are (path-id, byte offset) pairs. The `SymbolNameHash`
(QHash from name to QSet of locations) and the `symbol_names` store are
modelled by their lookup functions, an absent key reading as the empty set;
this also captures the `isEmpty` fast path of `addSymbolNames`, which assigns
the whole incoming hash and is lookup-equivalent to the per-key unite. -/

/-- Modelled from the spec: a location — a (path-id, byte offset) pair, null
when the path-id is 0 (`RTags::Location` is not among the given sources). -/
structure Loc where
  fileId : Nat
  offset : Nat
  deriving DecidableEq

/-- Whether a location is null (path-id 0). -/
def Loc.isNull (l : Loc) : Bool := l.fileId == 0

/-- A symbol-name key (the name bytes, abstracted to an id). -/
abbrev NameKey := Nat

/-- `IndexerSyncer::addSymbolNames`: per key, unite the staged set with the
incoming one (`mSymbolNames[it.key()].unite(it.value())`; when the staging
hash is empty it is assigned wholesale, which reads the same). -/
def addSymbolNames (staged incoming : NameKey → Finset Loc) : NameKey → Finset Loc :=
  fun k => staged k ∪ incoming k

/-- The symbol-names step of one `IndexerSyncer::run` cycle, per key: read the
current stored set, `addTo` the staged set, and write the union back only when
it grew (`addTo` reports a size change). Result: the store after the batch
write. -/
def symbolNamesCycle (store staged : NameKey → Finset Loc) : NameKey → Finset Loc :=
  fun k => if staged k ⊆ store k then store k else store k ∪ staged k

/-- Whether the symbol-names step appends a write for key `k` to the batch:
exactly when `addTo` grew the stored set. -/
def symbolNamesWriteIssued (store staged : NameKey → Finset Loc) (k : NameKey) : Prop :=
  ¬ staged k ⊆ store k

theorem foldl_union_cons (a : Finset Loc) (l : List (Finset Loc)) :
    l.foldl (fun s t => s ∪ t) a = a ∪ l.foldl (fun s t => s ∪ t) ∅ := by
  induction l generalizing a with
  | nil => simp
  | cons t rest ih =>
    simp only [List.foldl_cons]
    rw [ih (a ∪ t), ih (∅ ∪ t)]
    simp [Finset.union_assoc]

theorem staged_eq_union (calls : List (NameKey → Finset Loc)) (init : NameKey → Finset Loc)
    (k : NameKey) :
    (calls.foldl addSymbolNames init) k =
      init k ∪ (calls.map (fun c => c k)).foldl (fun s t => s ∪ t) ∅ := by
  induction calls generalizing init with
  | nil => simp
  | cons c rest ih =>
    simp only [List.foldl_cons, List.map_cons]
    rw [ih (addSymbolNames init c)]
    rw [foldl_union_cons (∅ ∪ c k)]
    simp [addSymbolNames, Finset.union_assoc]

/-- C3 (confirmed): after one writer cycle, the stored `symbol_names` set for
every key equals the union of all sets staged for that key by the
`addSymbolNames` calls, merged with the pre-existing stored value; and a write
for the key is batched exactly when that union is strictly larger than the
pre-existing value. -/
theorem claim_C3 (store : NameKey → Finset Loc) (calls : List (NameKey → Finset Loc))
    (k : NameKey) :
    symbolNamesCycle store (calls.foldl addSymbolNames (fun _ => ∅)) k =
      store k ∪ (calls.map (fun c => c k)).foldl (fun s t => s ∪ t) ∅ ∧
    (symbolNamesWriteIssued store (calls.foldl addSymbolNames (fun _ => ∅)) k ↔
      (store k).card <
        (store k ∪ (calls.map (fun c => c k)).foldl (fun s t => s ∪ t) ∅).card) := by
  have hstaged := staged_eq_union calls (fun _ => ∅) k
  simp only [Finset.empty_union] at hstaged
  constructor
  · unfold symbolNamesCycle
    rw [hstaged]
    by_cases hsub : (calls.map (fun c => c k)).foldl (fun s t => s ∪ t) ∅ ⊆ store k
    · rw [if_pos hsub]
      exact (Finset.union_eq_left.mpr hsub).symm
    · rw [if_neg hsub]
  · unfold symbolNamesWriteIssued
    rw [hstaged]
    constructor
    · intro hsub
      have hss : store k ⊂ store k ∪ (calls.map (fun c => c k)).foldl (fun s t => s ∪ t) ∅ := by
        refine ⟨Finset.subset_union_left, ?_⟩
        intro hback
        exact hsub (fun x hx => hback (Finset.mem_union_right _ hx))
      exact Finset.card_lt_card hss
    · intro hcard hsub
      rw [Finset.union_eq_left.mpr hsub] at hcard
      omega

/-! ## Persistence on timer fire (Server::save, Server::saveTimerCallback),
claim C7

File paths are token sequences: the data directory followed by a file token
(0 for the "fileids" paths blob, a project's encoded-path token otherwise).
`Server::save` is modelled by the sequence of file-system operations it
performs; blob payloads other than the leading 32-bit `DatabaseVersion` are
abstracted as tagged writes (0 = project state, 1 = indexer state,
2 = paths-to-ids map). -/

/-- A file path as a token sequence (data directory followed by file name). -/
abbrev SPath := List Nat

/-- A file-system operation performed by `Server::save`. -/
inductive FsOp
  | mkdirp (d : SPath)
  | openWrite (p : SPath)
  | writeVersion
  | writeData (tag : Nat)
  | closeFile
  | rename (src dst : SPath)
  deriving DecidableEq

/-- What `Server::save` reads from one registered project: its encoded-path
file token, whether its indexer is the one being saved, and whether the
project/indexer serialization calls succeed. -/
structure SaveProject where
  key : Nat
  isTarget : Bool
  projectSaveOk : Bool
  indexerSaveOk : Bool

/-- The environment of one `Server::save` call. -/
structure SaveEnv where
  dataDir : SPath
  mkdirOk : Bool
  openOk : SPath → Bool
  projects : List SaveProject

/-- The per-project loop of `Server::save`: skip projects of other indexers;
for the first project of the saved indexer, open its blob file (at its final
path, mode "w"), write the 32-bit version, then the project and indexer
state, and stop; every error path returns. -/
def saveProjectsTrace (dataDir : SPath) (openOk : SPath → Bool) :
    List SaveProject → List FsOp
  | [] => []
  | p :: rest =>
    if p.isTarget = false then saveProjectsTrace dataDir openOk rest
    else if openOk (dataDir ++ [p.key]) = false then [FsOp.openWrite (dataDir ++ [p.key])]
    else
      FsOp.openWrite (dataDir ++ [p.key]) :: FsOp.writeVersion ::
        (if p.projectSaveOk = false then [FsOp.closeFile]
         else FsOp.writeData 0 ::
           (if p.indexerSaveOk = false then [FsOp.closeFile]
            else [FsOp.writeData 1, FsOp.closeFile]))

/-- `Server::save`: make the data directory, rewrite the "fileids" paths blob
(version first, then the path-to-id map), then run the per-project loop. -/
def saveTrace (env : SaveEnv) : List FsOp :=
  if env.mkdirOk = false then [FsOp.mkdirp env.dataDir]
  else
    FsOp.mkdirp env.dataDir ::
      (if env.openOk (env.dataDir ++ [0]) = false then [FsOp.openWrite (env.dataDir ++ [0])]
       else
         FsOp.openWrite (env.dataDir ++ [0]) :: FsOp.writeVersion :: FsOp.writeData 2 ::
           FsOp.closeFile :: saveProjectsTrace env.dataDir env.openOk env.projects)

/-- `Server::saveTimerCallback`: deregister the fired timer, then run
`Server::save` for the indexer. -/
def saveTimerCallbackModel (loop : TimerLoop) (id : Int) (env : SaveEnv) :
    TimerLoop × List FsOp :=
  (removeTimer loop id, saveTrace env)

/-- Whether an operation is a rename. -/
def FsOp.isRename : FsOp → Bool
  | FsOp.rename _ _ => true
  | _ => false

/-- Checks that every successfully opened file receives the 32-bit schema
version as its first write. -/
def versionAfterOpen (openOk : SPath → Bool) : List FsOp → Bool
  | [] => true
  | FsOp.openWrite p :: rest =>
    if openOk p then
      match rest with
      | FsOp.writeVersion :: rest2 => versionAfterOpen openOk rest2
      | _ => false
    else versionAfterOpen openOk rest
  | _ :: rest => versionAfterOpen openOk rest

@[simp] theorem isRename_mkdirp (d : SPath) : (FsOp.mkdirp d).isRename = false := rfl

@[simp] theorem isRename_openWrite (p : SPath) : (FsOp.openWrite p).isRename = false := rfl

@[simp] theorem isRename_writeVersion : FsOp.writeVersion.isRename = false := rfl

@[simp] theorem isRename_writeData (t : Nat) : (FsOp.writeData t).isRename = false := rfl

@[simp] theorem isRename_closeFile : FsOp.closeFile.isRename = false := rfl

@[simp] theorem isRename_rename (a b : SPath) : (FsOp.rename a b).isRename = true := rfl

@[simp] theorem versionAfterOpen_nil (openOk : SPath → Bool) :
    versionAfterOpen openOk [] = true := rfl

@[simp] theorem versionAfterOpen_mkdirp (openOk : SPath → Bool) (d : SPath) (rest : List FsOp) :
    versionAfterOpen openOk (FsOp.mkdirp d :: rest) = versionAfterOpen openOk rest := rfl

@[simp] theorem versionAfterOpen_writeVersion (openOk : SPath → Bool) (rest : List FsOp) :
    versionAfterOpen openOk (FsOp.writeVersion :: rest) = versionAfterOpen openOk rest := rfl

@[simp] theorem versionAfterOpen_writeData (openOk : SPath → Bool) (t : Nat) (rest : List FsOp) :
    versionAfterOpen openOk (FsOp.writeData t :: rest) = versionAfterOpen openOk rest := rfl

@[simp] theorem versionAfterOpen_closeFile (openOk : SPath → Bool) (rest : List FsOp) :
    versionAfterOpen openOk (FsOp.closeFile :: rest) = versionAfterOpen openOk rest := rfl

theorem versionAfterOpen_open (openOk : SPath → Bool) (p : SPath) (rest : List FsOp) :
    versionAfterOpen openOk (FsOp.openWrite p :: FsOp.writeVersion :: rest) =
      if openOk p then versionAfterOpen openOk rest
      else versionAfterOpen openOk (FsOp.writeVersion :: rest) := rfl

theorem versionAfterOpen_open_false (openOk : SPath → Bool) (p : SPath) (rest : List FsOp)
    (h : openOk p = false) :
    versionAfterOpen openOk (FsOp.openWrite p :: rest) = versionAfterOpen openOk rest := by
  conv_lhs => unfold versionAfterOpen
  rw [h]
  simp

theorem saveProjects_no_rename (dataDir : SPath) (openOk : SPath → Bool)
    (l : List SaveProject) :
    (saveProjectsTrace dataDir openOk l).countP (fun op => FsOp.isRename op) = 0 := by
  induction l with
  | nil => simp [saveProjectsTrace]
  | cons p rest ih =>
    unfold saveProjectsTrace
    by_cases ht : p.isTarget = false
    · rw [if_pos ht]
      exact ih
    · rw [if_neg ht]
      by_cases ho : openOk (dataDir ++ [p.key]) = false
      · rw [if_pos ho]
        simp
      · rw [if_neg ho]
        split_ifs <;> simp

theorem saveProjects_version (dataDir : SPath) (openOk : SPath → Bool)
    (l : List SaveProject) :
    versionAfterOpen openOk (saveProjectsTrace dataDir openOk l) = true := by
  induction l with
  | nil => simp [saveProjectsTrace]
  | cons p rest ih =>
    unfold saveProjectsTrace
    by_cases ht : p.isTarget = false
    · rw [if_pos ht]
      exact ih
    · rw [if_neg ht]
      by_cases ho : openOk (dataDir ++ [p.key]) = false
      · rw [if_pos ho]
        rw [versionAfterOpen_open_false openOk _ _ ho]
        simp
      · rw [if_neg ho]
        have hot : openOk (dataDir ++ [p.key]) = true := by
          revert ho
          cases openOk (dataDir ++ [p.key]) <;> simp
        rw [versionAfterOpen_open, if_pos hot]
        split_ifs <;> simp

/-- C7 (amended): when the persistence timer fires the controller deregisters
the timer and serializes: it rewrites the global paths blob ("fileids") and
writes the per-project blob of the saved indexer, each blob starting with the
32-bit schema version — but it writes both blobs in place, opening their final
paths for writing directly; no temporary file and no rename is involved. -/
theorem claim_C7_amended (loop : TimerLoop) (id : Int) (env : SaveEnv)
    (hmkdir : env.mkdirOk = true) :
    (saveTimerCallbackModel loop id env).1 = removeTimer loop id ∧
    ((saveTimerCallbackModel loop id env).2).countP (fun op => FsOp.isRename op) = 0 ∧
    versionAfterOpen env.openOk (saveTimerCallbackModel loop id env).2 = true ∧
    FsOp.openWrite (env.dataDir ++ [0]) ∈ (saveTimerCallbackModel loop id env).2 := by
  refine ⟨rfl, ?_, ?_, ?_⟩
  · unfold saveTimerCallbackModel saveTrace
    rw [hmkdir]
    simp only [Bool.true_eq_false, if_false]
    by_cases h1 : env.openOk (env.dataDir ++ [0]) = false
    · rw [if_pos h1]
      simp
    · rw [if_neg h1]
      simp only [List.countP_cons, isRename_mkdirp, isRename_openWrite, isRename_writeVersion,
        isRename_writeData, isRename_closeFile, saveProjects_no_rename, Bool.false_eq_true,
        if_false]
  · unfold saveTimerCallbackModel saveTrace
    rw [hmkdir]
    simp only [Bool.true_eq_false, if_false]
    by_cases h1 : env.openOk (env.dataDir ++ [0]) = false
    · rw [if_pos h1]
      rw [versionAfterOpen_mkdirp]
      rw [versionAfterOpen_open_false _ _ _ h1]
      simp
    · rw [if_neg h1]
      have h1t : env.openOk (env.dataDir ++ [0]) = true := by
        revert h1
        cases env.openOk (env.dataDir ++ [0]) <;> simp
      rw [versionAfterOpen_mkdirp, versionAfterOpen_open, if_pos h1t]
      simp [saveProjects_version]
  · unfold saveTimerCallbackModel saveTrace
    rw [hmkdir]
    simp only [Bool.true_eq_false, if_false]
    split_ifs <;> simp

/-- Witness for C7: the amended theorem at a concrete environment with one
project of the saved indexer. -/
theorem claim_C7_witness :
    (saveTimerCallbackModel ⟨∅, 0, fun _ => 0⟩ 3
        ⟨[1], true, fun _ => true, [⟨5, true, true, true⟩]⟩).1 =
      removeTimer ⟨∅, 0, fun _ => 0⟩ 3 ∧
    ((saveTimerCallbackModel ⟨∅, 0, fun _ => 0⟩ 3
        ⟨[1], true, fun _ => true, [⟨5, true, true, true⟩]⟩).2).countP
      (fun op => FsOp.isRename op) = 0 ∧
    versionAfterOpen (fun _ => true)
      (saveTimerCallbackModel ⟨∅, 0, fun _ => 0⟩ 3
        ⟨[1], true, fun _ => true, [⟨5, true, true, true⟩]⟩).2 = true ∧
    FsOp.openWrite ([1] ++ [0]) ∈
      (saveTimerCallbackModel ⟨∅, 0, fun _ => 0⟩ 3
        ⟨[1], true, fun _ => true, [⟨5, true, true, true⟩]⟩).2 :=
  claim_C7_amended ⟨∅, 0, fun _ => 0⟩ 3 ⟨[1], true, fun _ => true, [⟨5, true, true, true⟩]⟩ rfl

/-- Counterexample for C7 as stated: with everything succeeding, the trace of
one save opens the per-project blob at its final path directly and contains
no rename at all, so the write is not performed via a temporary file that is
renamed into place. -/
theorem claim_C7_counterexample :
    (saveTrace ⟨[1], true, fun _ => true, [⟨5, true, true, true⟩]⟩).countP
      (fun op => FsOp.isRename op) = 0 ∧
    FsOp.openWrite [1, 5] ∈ saveTrace ⟨[1], true, fun _ => true, [⟨5, true, true, true⟩]⟩ ∧
    saveTrace ⟨[1], true, fun _ => true, [⟨5, true, true, true⟩]⟩ =
      [FsOp.mkdirp [1], FsOp.openWrite [1, 0], FsOp.writeVersion, FsOp.writeData 2,
       FsOp.closeFile, FsOp.openWrite [1, 5], FsOp.writeVersion, FsOp.writeData 0,
       FsOp.writeData 1, FsOp.closeFile] := by
  refine ⟨by decide, by decide, by decide⟩

/-! ## Source-root discovery (findAncestor, findProjectRoot), claim C4

The ancestor chain of the first input file is listed deepest first (the walk
in `findAncestor` stops before "/"); directories are tokens. `fs d m` is
whether directory `d` passes the test for marker `m` — a `stat` of `d/m` for
plain names, a directory scan with `fnmatch` (excluding `.` and `..`) for
wildcard patterns. -/

/-- An ancestor directory of the input file, identified by a token. -/
abbrev Dir := Nat

/-- `findAncestor(path, fn, flags)` over the ancestor chain `dirs` (deepest
first): visits every ancestor, overwriting `ret` at each hit, so without the
`Shallow` flag the returned hit is the last — shallowest — one; with
`Shallow` the walk stops at the first hit. -/
def findAncestor (dirs : List Dir) (hasMarker : Dir → Bool) (shallow : Bool) : Option Dir :=
  match dirs with
  | [] => none
  | d :: rest =>
    if hasMarker d then
      if shallow then some d
      else
        match findAncestor rest hasMarker shallow with
        | some r => some r
        | none => some d
    else findAncestor rest hasMarker shallow

/-- The marker table of `findProjectRoot`, in priority order (name, wildcard
flag); no entry carries the `Shallow` flag. -/
def markerEntries : List (String × Bool) :=
  [("GTAGS", false), ("configure", false), (".git", false), ("CMakeLists.txt", false),
   ("*.pro", true), ("scons.1", false), ("*.scons", true), ("SConstruct", false),
   ("autogen.*", true), ("Makefile*", true), ("GNUMakefile*", true),
   ("INSTALL*", true), ("README*", true)]

/-- The marker loop of `findProjectRoot`: for each marker in priority order,
run `findAncestor` (without `Shallow`) and return its hit when non-empty and
different from the home directory. -/
def findProjectRootLoop (dirs : List Dir) (fs : Dir → String → Bool) (home : Dir) :
    List (String × Bool) → Option Dir
  | [] => none
  | e :: rest =>
    match findAncestor dirs (fun d => fs d e.1) false with
    | some p => if p ≠ home then some p else findProjectRootLoop dirs fs home rest
    | none => findProjectRootLoop dirs fs home rest

/-- `findProjectRoot`: the marker loop, then the `config.status` fallback —
find the shallowest ancestor holding `config.status`, and take the first of
the resolved "configure"-line prefixes of its first 10 lines (`configRoots`)
that is not the home directory. -/
def findProjectRoot (dirs : List Dir) (fs : Dir → String → Bool) (home : Dir)
    (configRoots : Dir → List Dir) : Option Dir :=
  match findProjectRootLoop dirs fs home markerEntries with
  | some p => some p
  | none =>
    match findAncestor dirs (fun d => fs d "config.status") false with
    | some c => (configRoots c).find? (fun r => r ≠ home)
    | none => none

/-- The discovery procedure as the specification claim states it: walk the
ancestors deepest to shallowest and, at each ancestor, test the markers in
priority order, returning the first hit that is not the home directory. -/
def findProjectRootSpec (dirs : List Dir) (fs : Dir → String → Bool) (home : Dir) :
    Option Dir :=
  match dirs with
  | [] => none
  | d :: rest =>
    match markerEntries.find? (fun e => fs d e.1) with
    | some _ => if d ≠ home then some d else findProjectRootSpec rest fs home
    | none => findProjectRootSpec rest fs home

/-- The shallowest ancestor passing marker `m`, filtered against home: what
one iteration of the marker loop contributes. -/
def validHit (dirs : List Dir) (fs : Dir → String → Bool) (home : Dir) (m : String) :
    Option Dir :=
  match dirs.reverse.find? (fun d => fs d m) with
  | some p => if p = home then none else some p
  | none => none

theorem findAncestor_eq (dirs : List Dir) (hasM : Dir → Bool) :
    findAncestor dirs hasM false = dirs.reverse.find? hasM := by
  induction dirs with
  | nil => rfl
  | cons d rest ih =>
    unfold findAncestor
    simp only [List.reverse_cons, List.find?_append]
    by_cases h : hasM d
    · rw [if_pos h]
      simp only [Bool.false_eq_true, if_false]
      rw [ih]
      cases hf : rest.reverse.find? hasM with
      | none => simp [Option.or, List.find?, h]
      | some r => simp [Option.or]
    · rw [if_neg h]
      rw [ih]
      cases hf : rest.reverse.find? hasM with
      | none => simp [Option.or, List.find?, h]
      | some r => simp [Option.or]

theorem findProjectRootLoop_eq (dirs : List Dir) (fs : Dir → String → Bool) (home : Dir)
    (entries : List (String × Bool)) :
    findProjectRootLoop dirs fs home entries =
      entries.findSome? (fun e => validHit dirs fs home e.1) := by
  induction entries with
  | nil => rfl
  | cons e rest ih =>
    unfold findProjectRootLoop
    rw [findAncestor_eq, List.findSome?_cons]
    cases hf : dirs.reverse.find? (fun d => fs d e.1) with
    | none =>
      have hv : validHit dirs fs home e.1 = none := by
        unfold validHit
        rw [hf]
      rw [hv]
      simpa using ih
    | some p =>
      by_cases hp : p = home
      · have hv : validHit dirs fs home e.1 = none := by
          unfold validHit
          rw [hf]
          simp [hp]
        rw [hv]
        simpa [hp] using ih
      · have hv : validHit dirs fs home e.1 = some p := by
          unfold validHit
          rw [hf]
          simp [hp]
        rw [hv]
        simp [hp]

/-- C4 (amended): discovery is marker-major, not ancestor-major: for each
marker in priority order it computes the shallowest matching ancestor (the
last hit of the deepest-to-shallowest walk, since no entry passes `Shallow`),
and returns the first marker's hit that is not the home directory; if no
marker yields such a hit it falls back to the shallowest ancestor holding
`config.status`, taking the first resolved "configure"-line prefix different
from home; otherwise discovery fails (in particular it returns nothing when
every hit is the home directory). -/
theorem claim_C4_amended (dirs : List Dir) (fs : Dir → String → Bool) (home : Dir)
    (configRoots : Dir → List Dir) :
    findProjectRoot dirs fs home configRoots =
      (match markerEntries.findSome? (fun e => validHit dirs fs home e.1) with
       | some p => some p
       | none =>
         match dirs.reverse.find? (fun d => fs d "config.status") with
         | some c => (configRoots c).find? (fun r => r ≠ home)
         | none => none) := by
  unfold findProjectRoot
  rw [findProjectRootLoop_eq, findAncestor_eq]

/-- Counterexample for C4 as stated: ancestors [2, 1] (2 deepest), home 99,
with `.git` present in directory 2 and `configure` present in directory 1.
Walking ancestors deepest-first and testing markers in priority order at each
(as the claim states) yields directory 2 via `.git`; the code instead walks
marker-major and returns directory 1, because `configure` precedes `.git` in
the marker table and its (shallowest) hit is found first. -/
theorem claim_C4_counterexample :
    findProjectRoot [2, 1]
        (fun d m => (d == 2 && m == ".git") || (d == 1 && m == "configure")) 99
        (fun _ => []) = some 1 ∧
    findProjectRootSpec [2, 1]
        (fun d m => (d == 2 && m == ".git") || (d == 1 && m == "configure")) 99 = some 2 := by
  constructor <;> decide

/-! ## Reference merge (the references and symbols steps of IndexerSyncer::run),
claim C1

A staged reference entry is (from, (tgt, kind)). The staged symbols map
(`SymbolHash`) is modelled by its lookup function with explicit presence
(`none` = key absent), since presence decides between the in-memory branch and
the store branch; the symbols store and its write batch are modelled
explicitly, reads going against the store only (a pending `WriteBatch` does
not affect `readValue`), the last write per key winning at the final
`Write`. -/

/-- Modelled from the spec: reference kinds — Normal, MemberFunction,
GlobalFunction, only non-Normal kinds induce back-links (the `Rdm`
enumeration is not among the given sources). -/
inductive RefKind
  | normal
  | memberFunction
  | globalFunction
  deriving DecidableEq

/-- Modelled from the spec: the per-location cursor info record, restricted to
what the reference-merge and symbols steps read or write — the target location
(null when its path-id is 0) and the set of reference locations; kind, usr and
symbol name are untouched by these steps and are omitted. -/
structure CursorInfo where
  target : Loc
  references : Finset Loc
  deriving DecidableEq

/-- A default-constructed cursor info: what `readValue` yields for a missing
key and what `QHash::operator[]` default-inserts. -/
def CursorInfo.empty : CursorInfo := ⟨⟨0, 0⟩, ∅⟩

/-- One referring location inserted (`references.insert(...)` / `addTo`). -/
def CursorInfo.insertRef (x : Loc) (c : CursorInfo) : CursorInfo :=
  ⟨c.target, insert x c.references⟩

/-- A set united into the reference set (`references += ...` / `addTo`). -/
def CursorInfo.unionRefs (s : Finset Loc) (c : CursorInfo) : CursorInfo :=
  ⟨c.target, c.references ∪ s⟩

/-- A null target filled (`if (other.target.isNull()) other.target = ...`). -/
def CursorInfo.fillTarget (t : Loc) (c : CursorInfo) : CursorInfo :=
  if c.target.isNull then ⟨t, c.references⟩ else c

/-- Modelled from the spec: `Rdm::CursorInfo::unite` — union the reference
sets, fill a null target from the incoming value, and report whether anything
changed (the kind/usr preference concerns fields not modelled here). -/
def CursorInfo.unite (c inc : CursorInfo) : CursorInfo × Bool :=
  let target := if c.target.isNull then inc.target else c.target
  let refs := c.references ∪ inc.references
  (⟨target, refs⟩, decide (refs ≠ c.references) || decide (target ≠ c.target))

/-- The staged symbols map (`SymbolHash`) by lookup; `none` = key absent. -/
abbrev SymbolMap := Loc → Option CursorInfo

/-- Lookup with default construction. -/
def lookupCI (m : SymbolMap) (l : Loc) : CursorInfo := (m l).getD CursorInfo.empty

/-- Point update of the staged map, default-inserting an absent key; C++
references into the hash are captured by each step reading the latest map
(which also renders the from = tgt aliasing correctly). -/
def updCI (m : SymbolMap) (l : Loc) (f : CursorInfo → CursorInfo) : SymbolMap :=
  fun x => if x = l then some (f (lookupCI m l)) else m x

/-- A staged reference entry (from, (tgt, kind)). -/
abbrev RefEntry := Loc × Loc × RefKind

/-- Step 1 of the in-memory branch: `ci.references.insert(it.key())`. -/
def memB1 (fr tgt : Loc) (sym : SymbolMap) : SymbolMap :=
  updCI sym tgt (CursorInfo.insertRef fr)

/-- Step 2: `symbols[it.key()]` default-inserts `fr`. -/
def memB2 (fr : Loc) (sym : SymbolMap) : SymbolMap :=
  updCI sym fr id

/-- Step 3: `ci.references += other.references`. -/
def memB3 (fr tgt : Loc) (sym : SymbolMap) : SymbolMap :=
  updCI sym tgt (CursorInfo.unionRefs (lookupCI sym fr).references)

/-- Step 4: `other.references += ci.references`. -/
def memB4 (fr tgt : Loc) (sym : SymbolMap) : SymbolMap :=
  updCI sym fr (CursorInfo.unionRefs (lookupCI sym tgt).references)

/-- Step 5: `if (other.target.isNull()) other.target = it.value().first`. -/
def memB5 (fr tgt : Loc) (sym : SymbolMap) : SymbolMap :=
  updCI sym fr (CursorInfo.fillTarget tgt)

/-- The in-memory mutation sequence of the references step when `tgt` is
staged and the kind is not normal: insert `fr` into `tgt`'s references
(done before the kind test), default-insert `fr`, union the reference sets
both ways reading the latest values, and fill `fr`'s null target with `tgt`. -/
def memBranch (fr tgt : Loc) (sym : SymbolMap) : SymbolMap :=
  memB5 fr tgt (memB4 fr tgt (memB3 fr tgt (memB2 fr (memB1 fr tgt sym))))

/-- One iteration of the references step of `IndexerSyncer::run`.
If `tgt` is staged: insert `fr` into its references and, for a non-normal
kind, run the rest of the in-memory mutation sequence (`memBranch`).
Otherwise read/modify against the symbols store, batching a write for
`fr`'s record (non-normal kind) and for `tgt`'s record when they changed
(`addTo` reports growth). -/
def processRefCore (db : Loc → CursorInfo) (sym : SymbolMap)
    (batch : List (Loc × CursorInfo)) (fr tgt : Loc) (kind : RefKind) :
    SymbolMap × List (Loc × CursorInfo) :=
  match sym tgt with
  | some _ =>
    if kind = RefKind.normal then (updCI sym tgt (CursorInfo.insertRef fr), batch)
    else (memBranch fr tgt sym, batch)
  | none =>
    let current0 := db tgt
    let current1 := CursorInfo.insertRef fr current0
    let changed1 : Bool := decide (fr ∉ current0.references)
    if kind = RefKind.normal then
      (sym, batch ++ (if changed1 then [(tgt, current1)] else []))
    else
      let other0 := db fr
      let other1 := CursorInfo.insertRef fr other0
      let chO1 : Bool := decide (fr ∉ other0.references)
      let other2 := CursorInfo.unionRefs current1.references other1
      let chO2 : Bool := decide (¬ current1.references ⊆ other1.references)
      let current2 := CursorInfo.unionRefs other2.references current1
      let ch2 : Bool := decide (¬ other2.references ⊆ current1.references)
      let other3 := CursorInfo.fillTarget tgt other2
      let chO3 : Bool := other2.target.isNull
      (sym,
        batch ++ (if chO1 || chO2 || chO3 then [(fr, other3)] else []) ++
          (if changed1 || ch2 then [(tgt, current2)] else []))

/-- One iteration of the references step, over the (staged symbols, batch)
state and one staged entry. -/
def processRefEntry (db : Loc → CursorInfo) (st : SymbolMap × List (Loc × CursorInfo))
    (e : RefEntry) : SymbolMap × List (Loc × CursorInfo) :=
  processRefCore db st.1 st.2 e.1 e.2.1 e.2.2

/-- The references step over all staged entries (in QHash iteration order). -/
def runRefsStep (db : Loc → CursorInfo) (refs : List RefEntry) (sym0 : SymbolMap) :
    SymbolMap × List (Loc × CursorInfo) :=
  refs.foldl (processRefEntry db) (sym0, [])

/-- The value a leveldb `WriteBatch` leaves for a key: the last write wins. -/
def lastWrite (batch : List (Loc × CursorInfo)) (k : Loc) : Option CursorInfo :=
  (batch.reverse.find? (fun w => w.1 = k)).map (fun w => w.2)

/-- The symbols store after one writer cycle, per key: the references step
runs first; the symbols step then unites every staged record into the store
value read from `db`, appending a write after the references-step writes when
`unite` changed it; finally the batch is applied, last write per key winning. -/
def finalSymbols (db : Loc → CursorInfo) (refs : List RefEntry) (sym0 : SymbolMap)
    (k : Loc) : CursorInfo :=
  match runRefsStep db refs sym0 with
  | (symF, batch) =>
    match symF k with
    | some ci =>
      match CursorInfo.unite (db k) ci with
      | (u, changed) => if changed then u else (lastWrite batch k).getD (db k)
    | none => (lastWrite batch k).getD (db k)

theorem lookupCI_updCI (m : SymbolMap) (k l : Loc) (f : CursorInfo → CursorInfo) :
    lookupCI (updCI m k f) l = if l = k then f (lookupCI m k) else lookupCI m l := by
  by_cases h : l = k <;> simp [lookupCI, updCI, h]

/-- Growth of one cursor-info mutation: references only grow and a non-null
target stays non-null. -/
def goodStep (f : CursorInfo → CursorInfo) : Prop :=
  ∀ c, c.references ⊆ (f c).references ∧
    (c.target.isNull = false → (f c).target.isNull = false)

theorem goodStep_insertRef (x : Loc) : goodStep (CursorInfo.insertRef x) :=
  fun c => ⟨Finset.subset_insert x c.references, fun h => h⟩

theorem goodStep_unionRefs (s : Finset Loc) : goodStep (CursorInfo.unionRefs s) :=
  fun _ => ⟨Finset.subset_union_left, fun h => h⟩

theorem goodStep_fillTarget (t : Loc) : goodStep (CursorInfo.fillTarget t) := by
  intro c
  unfold CursorInfo.fillTarget
  by_cases h : c.target.isNull <;> simp [h]

theorem goodStep_id : goodStep id :=
  fun _ => ⟨subset_rfl, fun h => h⟩

/-- Staged-map growth: presence, reference sets and non-null targets are all
preserved. -/
def monoRel (a b : SymbolMap) : Prop :=
  ∀ l, ((a l).isSome → (b l).isSome) ∧
    (lookupCI a l).references ⊆ (lookupCI b l).references ∧
    ((lookupCI a l).target.isNull = false → (lookupCI b l).target.isNull = false)

theorem monoRel_refl (a : SymbolMap) : monoRel a a :=
  fun _ => ⟨fun h => h, subset_rfl, fun h => h⟩

theorem monoRel_trans {a b c : SymbolMap} (h1 : monoRel a b) (h2 : monoRel b c) :
    monoRel a c := by
  intro l
  exact ⟨fun h => (h2 l).1 ((h1 l).1 h),
    subset_trans (h1 l).2.1 (h2 l).2.1,
    fun h => (h2 l).2.2 ((h1 l).2.2 h)⟩

theorem monoRel_updCI (m : SymbolMap) (k : Loc) (f : CursorInfo → CursorInfo)
    (hf : goodStep f) : monoRel m (updCI m k f) := by
  intro l
  by_cases h : l = k
  · subst h
    rw [lookupCI_updCI]
    simp only [if_pos rfl]
    refine ⟨fun _ => ?_, (hf (lookupCI m l)).1, (hf (lookupCI m l)).2⟩
    unfold updCI
    simp
  · rw [lookupCI_updCI]
    simp only [if_neg h]
    refine ⟨fun hs => ?_, subset_rfl, fun hh => hh⟩
    unfold updCI
    simp [h, hs]

theorem memB1_mono (fr tgt : Loc) (sym : SymbolMap) : monoRel sym (memB1 fr tgt sym) :=
  monoRel_updCI sym tgt _ (goodStep_insertRef fr)

theorem memB2_mono (fr : Loc) (sym : SymbolMap) : monoRel sym (memB2 fr sym) :=
  monoRel_updCI sym fr id goodStep_id

theorem memB3_mono (fr tgt : Loc) (sym : SymbolMap) : monoRel sym (memB3 fr tgt sym) :=
  monoRel_updCI sym tgt _ (goodStep_unionRefs _)

theorem memB4_mono (fr tgt : Loc) (sym : SymbolMap) : monoRel sym (memB4 fr tgt sym) :=
  monoRel_updCI sym fr _ (goodStep_unionRefs _)

theorem memB5_mono (fr tgt : Loc) (sym : SymbolMap) : monoRel sym (memB5 fr tgt sym) :=
  monoRel_updCI sym fr _ (goodStep_fillTarget tgt)

theorem memBranch_mono (fr tgt : Loc) (sym : SymbolMap) :
    monoRel sym (memBranch fr tgt sym) := by
  unfold memBranch
  exact monoRel_trans (memB1_mono fr tgt sym)
    (monoRel_trans (memB2_mono fr _)
      (monoRel_trans (memB3_mono fr tgt _)
        (monoRel_trans (memB4_mono fr tgt _) (memB5_mono fr tgt _))))

theorem processRefCore_some (db : Loc → CursorInfo) (sym : SymbolMap)
    (batch : List (Loc × CursorInfo)) (fr tgt : Loc) (kind : RefKind) (ci : CursorInfo)
    (hst : sym tgt = some ci) :
    processRefCore db sym batch fr tgt kind =
      (if kind = RefKind.normal then (updCI sym tgt (CursorInfo.insertRef fr), batch)
       else (memBranch fr tgt sym, batch)) := by
  unfold processRefCore
  rw [hst]

theorem processRefCore_none_fst (db : Loc → CursorInfo) (sym : SymbolMap)
    (batch : List (Loc × CursorInfo)) (fr tgt : Loc) (kind : RefKind)
    (hst : sym tgt = none) :
    (processRefCore db sym batch fr tgt kind).1 = sym := by
  unfold processRefCore
  rw [hst]
  by_cases hk : kind = RefKind.normal <;> simp [hk]

theorem processRefEntry_mono (db : Loc → CursorInfo) (sym : SymbolMap)
    (batch : List (Loc × CursorInfo)) (e : RefEntry) :
    monoRel sym (processRefEntry db (sym, batch) e).1 := by
  obtain ⟨fr, tgt, kind⟩ := e
  show monoRel sym (processRefCore db sym batch fr tgt kind).1
  cases hst : sym tgt with
  | none =>
    rw [processRefCore_none_fst db sym batch fr tgt kind hst]
    exact monoRel_refl sym
  | some ci =>
    rw [processRefCore_some db sym batch fr tgt kind ci hst]
    by_cases hk : kind = RefKind.normal
    · rw [if_pos hk]
      exact monoRel_updCI sym tgt _ (goodStep_insertRef fr)
    · rw [if_neg hk]
      exact memBranch_mono fr tgt sym

theorem foldRefs_mono (db : Loc → CursorInfo) (l : List RefEntry)
    (st : SymbolMap × List (Loc × CursorInfo)) :
    monoRel st.1 (l.foldl (processRefEntry db) st).1 := by
  induction l generalizing st with
  | nil => exact monoRel_refl st.1
  | cons e rest ih =>
    rw [List.foldl_cons]
    refine monoRel_trans ?_ (ih (processRefEntry db st e))
    obtain ⟨sym, batch⟩ := st
    exact processRefEntry_mono db sym batch e

theorem fillTarget_target (t : Loc) (c : CursorInfo) (ht : t.isNull = false) :
    (CursorInfo.fillTarget t c).target.isNull = false := by
  unfold CursorInfo.fillTarget
  by_cases h : c.target.isNull <;> simp [h, ht]

theorem fillTarget_refs (t : Loc) (c : CursorInfo) :
    (CursorInfo.fillTarget t c).references = c.references := by
  unfold CursorInfo.fillTarget
  by_cases h : c.target.isNull <;> simp [h]

theorem memBranch_establishes (fr tgt : Loc) (sym : SymbolMap) (htgt : tgt.isNull = false) :
    ((memBranch fr tgt sym) tgt).isSome ∧
    ((memBranch fr tgt sym) fr).isSome ∧
    fr ∈ (lookupCI (memBranch fr tgt sym) tgt).references ∧
    fr ∈ (lookupCI (memBranch fr tgt sym) fr).references ∧
    (lookupCI (memBranch fr tgt sym) fr).target.isNull = false := by
  have hfill : ∀ c : CursorInfo, (CursorInfo.fillTarget tgt c).target.isNull = false :=
    fun c => fillTarget_target tgt c htgt
  by_cases h : fr = tgt
  · subst h
    refine ⟨?_, ?_, ?_, ?_, ?_⟩ <;>
      simp [memBranch, memB1, memB2, memB3, memB4, memB5, lookupCI_updCI, hfill,
        fillTarget_refs, CursorInfo.unionRefs, CursorInfo.insertRef, updCI, lookupCI]
  · have hne : ¬ tgt = fr := fun hh => h hh.symm
    refine ⟨?_, ?_, ?_, ?_, ?_⟩ <;>
      simp [memBranch, memB1, memB2, memB3, memB4, memB5, lookupCI_updCI, hfill,
        fillTarget_refs, CursorInfo.unionRefs, CursorInfo.insertRef, updCI, lookupCI, h, hne]

/-- Soundness of one entry's batched writes: each is either inherited or is
monotone over the store value it was computed from — its reference set
contains the store's and it preserves a non-null store target. -/
theorem processRefCore_batch_sound (db : Loc → CursorInfo) (sym : SymbolMap)
    (batch : List (Loc × CursorInfo)) (fr tgt : Loc) (kind : RefKind) :
    ∀ w ∈ (processRefCore db sym batch fr tgt kind).2,
      w ∈ batch ∨
        ((db w.1).references ⊆ w.2.references ∧
          ((db w.1).target.isNull = false → w.2.target.isNull = false)) := by
  intro w hw
  cases hst : sym tgt with
  | some ci =>
    rw [processRefCore_some db sym batch fr tgt kind ci hst] at hw
    left
    by_cases hk : kind = RefKind.normal
    · rw [if_pos hk] at hw
      exact hw
    · rw [if_neg hk] at hw
      exact hw
  | none =>
    unfold processRefCore at hw
    rw [hst] at hw
    by_cases hk : kind = RefKind.normal
    · simp only [hk, if_true] at hw
      rcases List.mem_append.mp hw with hb | hb
      · exact Or.inl hb
      · right
        split_ifs at hb with hc
        · rcases List.mem_singleton.mp hb with rfl
          exact ⟨Finset.subset_insert _ _, fun hh => hh⟩
        · simp at hb
    · simp only [hk, Bool.false_eq_true, if_false] at hw
      rcases List.mem_append.mp hw with hw1 | hw1
      · rcases List.mem_append.mp hw1 with hb | hb
        · exact Or.inl hb
        · right
          split_ifs at hb with hc
          · rcases List.mem_singleton.mp hb with rfl
            constructor
            · rw [fillTarget_refs]
              exact subset_trans (Finset.subset_insert _ _) Finset.subset_union_left
            · intro hdb
              exact (goodStep_fillTarget tgt _).2 hdb
          · simp at hb
      · right
        split_ifs at hw1 with hc
        · rcases List.mem_singleton.mp hw1 with rfl
          constructor
          · exact subset_trans (Finset.subset_insert _ _) Finset.subset_union_left
          · intro hh
            exact hh
        · simp at hw1

theorem runRefsStep_batch_sound (db : Loc → CursorInfo) (refs : List RefEntry)
    (sym0 : SymbolMap) :
    ∀ w ∈ (runRefsStep db refs sym0).2,
      (db w.1).references ⊆ w.2.references ∧
        ((db w.1).target.isNull = false → w.2.target.isNull = false) := by
  unfold runRefsStep
  suffices h : ∀ st : SymbolMap × List (Loc × CursorInfo),
      (∀ w ∈ st.2, (db w.1).references ⊆ w.2.references ∧
        ((db w.1).target.isNull = false → w.2.target.isNull = false)) →
      ∀ w ∈ (refs.foldl (processRefEntry db) st).2,
        (db w.1).references ⊆ w.2.references ∧
          ((db w.1).target.isNull = false → w.2.target.isNull = false) by
    exact h (sym0, []) (by intro w hw; simp at hw)
  induction refs with
  | nil =>
    intro st hst
    exact hst
  | cons e rest ih =>
    intro st hst
    rw [List.foldl_cons]
    apply ih
    intro w hw
    obtain ⟨sym, batch⟩ := st
    obtain ⟨fr, tgt, kind⟩ := e
    rcases processRefCore_batch_sound db sym batch fr tgt kind w hw with hb | hb
    · exact hst w hb
    · exact hb

theorem lastWrite_sound (db : Loc → CursorInfo) (batch : List (Loc × CursorInfo))
    (k : Loc) (v : CursorInfo)
    (hsound : ∀ w ∈ batch, (db w.1).references ⊆ w.2.references ∧
      ((db w.1).target.isNull = false → w.2.target.isNull = false))
    (hlw : lastWrite batch k = some v) :
    (db k).references ⊆ v.references ∧
      ((db k).target.isNull = false → v.target.isNull = false) := by
  unfold lastWrite at hlw
  cases hf : batch.reverse.find? (fun w => w.1 = k) with
  | none =>
    rw [hf] at hlw
    simp at hlw
  | some w =>
    rw [hf] at hlw
    simp at hlw
    have hmem : w ∈ batch := List.mem_reverse.mp (List.mem_of_find?_eq_some hf)
    have hkey : w.1 = k := by
      have := List.find?_some hf
      simpa using this
    have := hsound w hmem
    rw [hkey, hlw] at this
    exact this

theorem loc_ne_of_isNull (a b : Loc) (ha : a.isNull = false) (hb : b.isNull = true) :
    a ≠ b := by
  intro h
  rw [h, hb] at ha
  cases ha

/-- What the cycle keeps of a record present in the staged symbols map after
the references step: its reference set survives into the final store and a
non-null target stays non-null. -/
theorem unite_val (c inc : CursorInfo) :
    (CursorInfo.unite c inc).1 =
      ⟨if c.target.isNull then inc.target else c.target, c.references ∪ inc.references⟩ := rfl

theorem unite_changed (c inc : CursorInfo) :
    (CursorInfo.unite c inc).2 =
      (decide ((c.references ∪ inc.references) ≠ c.references) ||
        decide ((if c.target.isNull then inc.target else c.target) ≠ c.target)) := rfl

theorem finalSymbols_keeps (db : Loc → CursorInfo) (refs : List RefEntry)
    (sym0 : SymbolMap) (k : Loc) (ci : CursorInfo)
    (hst : (runRefsStep db refs sym0).1 k = some ci) :
    ci.references ⊆ (finalSymbols db refs sym0 k).references ∧
      (ci.target.isNull = false → (finalSymbols db refs sym0 k).target.isNull = false) := by
  have hsound0 := runRefsStep_batch_sound db refs sym0
  rcases hrun : runRefsStep db refs sym0 with ⟨symF, batch⟩
  rw [hrun] at hst hsound0
  have hst2 : symF k = some ci := hst
  have hsound : ∀ w ∈ batch, (db w.1).references ⊆ w.2.references ∧
      ((db w.1).target.isNull = false → w.2.target.isNull = false) := hsound0
  have hfinal : finalSymbols db refs sym0 k =
      (if (CursorInfo.unite (db k) ci).2 = true then (CursorInfo.unite (db k) ci).1
       else (lastWrite batch k).getD (db k)) := by
    unfold finalSymbols
    rw [hrun]
    show (match symF k with
          | some ci2 =>
            match CursorInfo.unite (db k) ci2 with
            | (u, changed) => if changed then u else (lastWrite batch k).getD (db k)
          | none => (lastWrite batch k).getD (db k)) = _
    rw [hst2]
  rw [hfinal, unite_changed, unite_val]
  by_cases hA : (db k).references ∪ ci.references = (db k).references
  · by_cases hB : (if (db k).target.isNull then ci.target else (db k).target) = (db k).target
    · rw [if_neg (by simp [hA, hB])]
      have hsub : ci.references ⊆ (db k).references := by
        rw [← hA]
        exact Finset.subset_union_right
      have hdbnull : ci.target.isNull = false → (db k).target.isNull = false := by
        intro hci
        by_cases hdb : (db k).target.isNull
        · rw [if_pos hdb] at hB
          exact absurd hB (loc_ne_of_isNull ci.target (db k).target hci hdb)
        · simpa using hdb
      cases hlw : lastWrite batch k with
      | none =>
        simp only [hlw, Option.getD_none]
        exact ⟨hsub, hdbnull⟩
      | some v =>
        simp only [hlw, Option.getD_some]
        have hv := lastWrite_sound db batch k v hsound hlw
        exact ⟨subset_trans hsub hv.1, fun hci => hv.2 (hdbnull hci)⟩
    · rw [if_pos (by simp [hB])]
      refine ⟨Finset.subset_union_right, ?_⟩
      intro hci
      by_cases hdb : (db k).target.isNull
      · rw [if_pos hdb]
        exact hci
      · rw [if_neg hdb]
        simpa using hdb
  · rw [if_pos (by simp [hA])]
    refine ⟨Finset.subset_union_right, ?_⟩
    intro hci
    by_cases hdb : (db k).target.isNull
    · rw [if_pos hdb]
      exact hci
    · rw [if_neg hdb]
      simpa using hdb

/-- C1 (amended): for every staged reference entry (from, (to, kind)) with a
non-normal kind, a non-null target location and the target symbol present in
the staged symbols map, after the writer cycle that processes it the symbols
store contains the location of `from` in the reference sets of both records —
the one under `to` and the one under `from` — and the record under `from` has
a non-null target (the code back-links by filling the target of `from` with
`to`; it does not insert the location of `to` into the reference set of
`from` and does not fill the target of `to`, contrary to the claim as
stated). -/
theorem claim_C1_amended (db : Loc → CursorInfo) (refs : List RefEntry) (sym0 : SymbolMap)
    (fr tgt : Loc) (kind : RefKind)
    (hmem : (fr, tgt, kind) ∈ refs) (hkind : kind ≠ RefKind.normal)
    (htgt : (sym0 tgt).isSome = true) (htnull : tgt.isNull = false) :
    fr ∈ (finalSymbols db refs sym0 tgt).references ∧
    fr ∈ (finalSymbols db refs sym0 fr).references ∧
    (finalSymbols db refs sym0 fr).target.isNull = false := by
  obtain ⟨l1, l2, rfl⟩ := List.append_of_mem hmem
  have hmono1 := foldRefs_mono db l1 ((sym0, []) : SymbolMap × List (Loc × CursorInfo))
  have htmid : ((l1.foldl (processRefEntry db) (sym0, [])).1 tgt).isSome :=
    (hmono1 tgt).1 htgt
  obtain ⟨ciM, hciM⟩ := Option.isSome_iff_exists.mp htmid
  have hstep : (processRefEntry db (l1.foldl (processRefEntry db) (sym0, []))
      (fr, tgt, kind)).1 = memBranch fr tgt (l1.foldl (processRefEntry db) (sym0, [])).1 := by
    show (processRefCore db (l1.foldl (processRefEntry db) (sym0, [])).1
        (l1.foldl (processRefEntry db) (sym0, [])).2 fr tgt kind).1 = _
    rw [processRefCore_some db _ _ fr tgt kind ciM hciM, if_neg hkind]
  have hest := memBranch_establishes fr tgt (l1.foldl (processRefEntry db) (sym0, [])).1 htnull
  have hmono2 := foldRefs_mono db l2
    (processRefEntry db (l1.foldl (processRefEntry db) (sym0, [])) (fr, tgt, kind))
  have hrun : runRefsStep db (l1 ++ (fr, tgt, kind) :: l2) sym0 =
      l2.foldl (processRefEntry db)
        (processRefEntry db (l1.foldl (processRefEntry db) (sym0, [])) (fr, tgt, kind)) := by
    unfold runRefsStep
    rw [List.foldl_append, List.foldl_cons]
  have hFtgt : ((runRefsStep db (l1 ++ (fr, tgt, kind) :: l2) sym0).1 tgt).isSome := by
    rw [hrun]
    exact (hmono2 tgt).1 (by rw [hstep]; exact hest.1)
  have hFfr : ((runRefsStep db (l1 ++ (fr, tgt, kind) :: l2) sym0).1 fr).isSome := by
    rw [hrun]
    exact (hmono2 fr).1 (by rw [hstep]; exact hest.2.1)
  have hFmtgt : fr ∈
      (lookupCI (runRefsStep db (l1 ++ (fr, tgt, kind) :: l2) sym0).1 tgt).references := by
    rw [hrun]
    refine (hmono2 tgt).2.1 ?_
    rw [hstep]
    exact hest.2.2.1
  have hFmfr : fr ∈
      (lookupCI (runRefsStep db (l1 ++ (fr, tgt, kind) :: l2) sym0).1 fr).references := by
    rw [hrun]
    refine (hmono2 fr).2.1 ?_
    rw [hstep]
    exact hest.2.2.2.1
  have hFt :
      (lookupCI (runRefsStep db (l1 ++ (fr, tgt, kind) :: l2) sym0).1 fr).target.isNull = false := by
    rw [hrun]
    refine (hmono2 fr).2.2 ?_
    rw [hstep]
    exact hest.2.2.2.2
  obtain ⟨ciT, hciT⟩ := Option.isSome_iff_exists.mp hFtgt
  obtain ⟨ciF, hciF⟩ := Option.isSome_iff_exists.mp hFfr
  have hciTm : fr ∈ ciT.references := by
    unfold lookupCI at hFmtgt
    rw [hciT] at hFmtgt
    simpa using hFmtgt
  have hciFm : fr ∈ ciF.references := by
    unfold lookupCI at hFmfr
    rw [hciF] at hFmfr
    simpa using hFmfr
  have hciFt : ciF.target.isNull = false := by
    unfold lookupCI at hFt
    rw [hciF] at hFt
    simpa using hFt
  have hkT := finalSymbols_keeps db (l1 ++ (fr, tgt, kind) :: l2) sym0 tgt ciT hciT
  have hkF := finalSymbols_keeps db (l1 ++ (fr, tgt, kind) :: l2) sym0 fr ciF hciF
  exact ⟨hkT.1 hciTm, hkF.1 hciFm, hkF.2 hciFt⟩

/-- Witness for C1: the amended theorem at one staged member-function
reference (1,1) → (2,2) with the target symbol staged (empty record) and an
empty store. -/
theorem claim_C1_witness :
    (⟨1, 1⟩ : Loc) ∈ (finalSymbols (fun _ => CursorInfo.empty)
      [(⟨1, 1⟩, ⟨2, 2⟩, RefKind.memberFunction)]
      (fun l => if l = ⟨2, 2⟩ then some CursorInfo.empty else none) ⟨2, 2⟩).references ∧
    (⟨1, 1⟩ : Loc) ∈ (finalSymbols (fun _ => CursorInfo.empty)
      [(⟨1, 1⟩, ⟨2, 2⟩, RefKind.memberFunction)]
      (fun l => if l = ⟨2, 2⟩ then some CursorInfo.empty else none) ⟨1, 1⟩).references ∧
    (finalSymbols (fun _ => CursorInfo.empty)
      [(⟨1, 1⟩, ⟨2, 2⟩, RefKind.memberFunction)]
      (fun l => if l = ⟨2, 2⟩ then some CursorInfo.empty else none) ⟨1, 1⟩).target.isNull = false :=
  claim_C1_amended (fun _ => CursorInfo.empty)
    [(⟨1, 1⟩, ⟨2, 2⟩, RefKind.memberFunction)]
    (fun l => if l = ⟨2, 2⟩ then some CursorInfo.empty else none)
    ⟨1, 1⟩ ⟨2, 2⟩ RefKind.memberFunction
    (by decide) (by decide) (by decide) (by decide)

/-- Counterexample for C1 as stated: one staged member-function reference
(1,1) → (2,2) with the target symbol staged and an empty store. After the
cycle the record under (2,2) still has a null target, and the record under
(1,1) does not contain (2,2) in its references — the code fills the target on
the `from` side and never inserts the location of `to` into a reference
set. -/
theorem claim_C1_counterexample :
    ((finalSymbols (fun _ => CursorInfo.empty)
      [(⟨1, 1⟩, ⟨2, 2⟩, RefKind.memberFunction)]
      (fun l => if l = ⟨2, 2⟩ then some CursorInfo.empty else none) ⟨2, 2⟩).target.isNull = true) ∧
    ((⟨2, 2⟩ : Loc) ∉ (finalSymbols (fun _ => CursorInfo.empty)
      [(⟨1, 1⟩, ⟨2, 2⟩, RefKind.memberFunction)]
      (fun l => if l = ⟨2, 2⟩ then some CursorInfo.empty else none) ⟨1, 1⟩).references) := by
  constructor <;> decide

end Rtags
